import Mathlib

/-!
Verification of the Corvus PaaS control plane (corvus-control-plane, Go)
against its natural-language specification.

The Go source is shallowly embedded: each relevant function is translated
into an executable Lean definition. Machine-level effects (SQL execution,
Docker SDK calls, filesystem syscalls) are modelled by explicit outcome
parameters ("worlds") or by traces of emitted filesystem actions, so the
control flow and the decisions of the Go code are captured exactly.
Timestamps are modelled as integers (UTC epoch values).
-/

namespace Corvus

/-! ## Data model (models/models.go) -/

/-- `models.DeploymentStatus`: lifecycle state of a deployment. -/
inductive DeploymentStatus
  | deploying
  | live
  | failed
deriving DecidableEq, Repr

/-- `models.SourceType`: where the deployment source originates from. -/
inductive SourceType
  | zip
  | github
deriving DecidableEq, Repr

/-- `models.Deployment`: one row of the deployments table.
Optional (`*string`, `*time.Time`) Go fields become `Option`;
times are integers (UTC). -/
structure Deployment where
  id : String
  slug : String
  name : String
  sourceType : SourceType
  gitHubURL : Option String
  branch : String
  buildCommand : String
  outputDirectory : String
  environmentVariables : Option String
  status : DeploymentStatus
  url : Option String
  webhookSecret : Option String
  autoDeploy : Bool
  expiresAt : Option Int
  createdAt : Int
  updatedAt : Int
deriving DecidableEq, Repr

/-! ## State store (db/deployments.go) -/

/-- Column list of the `SELECT` inside `GetDeployment` (db/deployments.go,
lines 113-119), transcribed verbatim: 15 columns, `created_at` is absent. -/
def getDeploymentSelectColumns : List String :=
  ["id", "slug", "name", "source_type", "github_url", "branch",
   "build_cmd", "output_dir", "env_vars", "status", "url",
   "webhook_secret", "auto_deploy", "expires_at", "updated_at"]

/-- The scan destinations passed by `scanDeploymentFields`
(db/deployments.go, lines 380-397): 16 struct fields, `CreatedAt` included. -/
def scanDeploymentFieldsDestinations : List String :=
  ["ID", "Slug", "Name", "SourceType", "GitHubURL", "Branch",
   "BuildCommand", "OutputDirectory", "EnvironmentVariables", "Status", "URL",
   "WebhookSecret", "AutoDeploy", "ExpiresAt", "CreatedAt", "UpdatedAt"]

/-- Errors surfaced by the `database/sql` scan step. -/
inductive SqlScanError
  | errNoRows
  | countMismatch (columns destinations : Nat)
deriving DecidableEq, Repr

/-- Go `database/sql` contract for `(*sql.Row).Scan`: with no matching row it
returns `sql.ErrNoRows`; otherwise, when the number of selected columns
differs from the number of destination arguments, it fails with
"sql: expected N destination arguments in Scan, not M"; only with matching
counts does it populate the destinations. -/
def rowScan (columns destinations : List String) (row : Option Deployment) :
    Except SqlScanError Deployment :=
  match row with
  | none => .error .errNoRows
  | some r =>
    if columns.length = destinations.length then .ok r
    else .error (.countMismatch columns.length destinations.length)

/-- Error kinds returned by `GetDeployment`. `recordNotFound` is the sentinel
`ErrRecordNotFound`; `getFailed` is the wrapped error
`fmt.Errorf("failed to get deployment %q: %w", id, err)`. -/
inductive GetDeploymentError
  | recordNotFound
  | getFailed (id : String) (inner : SqlScanError)
deriving DecidableEq, Repr

/-- Translation of `GetDeployment` (db/deployments.go, lines 111-139):
`QueryRow` with `WHERE id = ?` fetches the first matching row, then
`scanDeploymentFields` scans it; `sql.ErrNoRows` becomes
`ErrRecordNotFound`, any other scan error is wrapped and returned. -/
def getDeployment (db : List Deployment) (id : String) :
    Except GetDeploymentError Deployment :=
  let row := db.find? fun d => d.id == id
  match rowScan getDeploymentSelectColumns scanDeploymentFieldsDestinations row with
  | .error .errNoRows => .error .recordNotFound
  | .error e => .error (.getFailed id e)
  | .ok d => .ok d

/-- Translation of `ListExpiredDeployments` (db/deployments.go, lines 306-335):
the SQL `WHERE expires_at IS NOT NULL AND expires_at <= CURRENT_TIMESTAMP
AND status = ?` with `models.StatusLive` bound, read over the store; the
`now` argument stands for `CURRENT_TIMESTAMP`. -/
def listExpiredDeployments (db : List Deployment) (now : Int) : List Deployment :=
  db.filter fun d =>
    (match d.expiresAt with
     | none => false
     | some t => decide (t ≤ now)) && decide (d.status = .live)

/-- The single `timeNow` value and the two struct mutations performed by
`InsertDeployment` (db/deployments.go, lines 74-83) before the SQL `Exec`:
`deployment.CreatedAt = timeNow; deployment.UpdatedAt = timeNow`. -/
def insertMutatedDeployment (now : Int) (d : Deployment) : Deployment :=
  { d with createdAt := now, updatedAt := now }

/-- Translation of `InsertDeployment` (db/deployments.go, lines 50-107).
`execResult` is the outcome of `database.connection.Exec`; on success the
function returns `nil` and the caller observes the mutated struct, and the
inserted row carries exactly the values passed to `Exec`, all taken from
the mutated struct. The result pairs (mutated caller struct, inserted row). -/
def insertDeployment (now : Int) (execResult : Except String Unit)
    (d : Deployment) : Except String (Deployment × Deployment) :=
  let mutated := insertMutatedDeployment now d
  match execResult with
  | .error e => .error ("failed to insert deployment " ++ d.id ++ ": " ++ e)
  | .ok _ => .ok (mutated, mutated)

/-! ## Container naming (build2/pipeline_github_deploy.go, docker/build_container.go,
build/expiration.go deployToNginx) -/

/-- Serving container name, constructed identically in `deployToNginx`,
`DeployZipUpload`, `RedeployExistingZip` and `TeardownDeployment`:
`containerName := "deploy-" + deployment.Slug`. -/
def deployContainerName (slug : String) : String := "deploy-" ++ slug

/-- Build container name as actually constructed by `DeployGitHub`:
`buildContainerName := "building-" + deployment.Slug`. -/
def gitHubBuildContainerName (slug : String) : String := "building-" ++ slug

/-- The naming convention documented on `RunEphemeralBuildContainerConfig.ContainerName`
("used "build-<slug>" to distinguish from "deploy-<slug>" serving containers")
and stated by the spec. -/
def documentedBuildContainerName (slug : String) : String := "build-" ++ slug

/-- Ephemeral build containers created during one `DeployGitHub` run: the
`RunEphemeralBuildContainer` call sits inside the single
`if deployment.BuildCommand != ""` block and is issued exactly once there. -/
def gitHubRunBuildContainers (buildCommand slug : String) : List String :=
  if buildCommand = "" then [] else [gitHubBuildContainerName slug]

/-! ## Paths (Go path/filepath, lexical semantics)

A path is a rootedness flag plus its separator-split components. `pathClean`
is Go `filepath.Clean` on components: empty and `.` components are dropped,
`..` pops the previous component, leading `..` survive on relative paths and
vanish at the root of absolute paths. `filepath.Join(a, b)` concatenates and
cleans. The source's zip-slip test compares rendered strings, each with a
trailing separator appended; on cleaned paths (components nonempty and free
of separators) that string test coincides with the component-list test
`pathWithin` used here. -/

structure GoPath where
  rooted : Bool
  comps : List String
deriving DecidableEq, Repr

/-- One step of Go `filepath.Clean`, accumulating output components in
reverse order. -/
def cleanStep (rooted : Bool) (acc : List String) (c : String) : List String :=
  if c = "" ∨ c = "." then acc
  else if c = ".." then
    match acc with
    | [] => if rooted then [] else [".."]
    | a :: rest => if a = ".." then c :: acc else rest
  else c :: acc

/-- Go `filepath.Clean` on a split path. -/
def pathClean (p : GoPath) : GoPath :=
  ⟨p.rooted, (p.comps.foldl (cleanStep p.rooted) []).reverse⟩

/-- Go `filepath.Join(a, name)` for a relative `name`: append the components
and clean the result. -/
def pathJoin (a : GoPath) (name : List String) : GoPath :=
  pathClean ⟨a.rooted, a.comps ++ name⟩

/-- `filepath.Dir` of a cleaned path: drop the last component. -/
def pathDir (p : GoPath) : GoPath :=
  ⟨p.rooted, p.comps.dropLast⟩

/-- Containment test of `extractZipEntry`: the rendered candidate path plus a
trailing separator starts with the rendered cleaned destination plus a
trailing separator. On component lists: same rootedness and the destination
components are a prefix of the candidate components. -/
def pathWithin (dest p : GoPath) : Bool :=
  dest.rooted == p.rooted && dest.comps.isPrefixOf p.comps

/-! ## Zip staging (build/zip_extract.go: ExtractZipUpload, extractZipEntry,
writeZipEntryToDisk) -/

/-- The on-disk type of a zip entry, as reported by `zipEntry.FileInfo()` /
`zipEntry.Mode()`: regular file, directory, symlink, or another non-regular
kind (device node, FIFO, socket). -/
inductive ZipEntryType
  | regular
  | directory
  | symlink
  | device
  | fifo
  | socket
deriving DecidableEq, Repr

/-- A zip archive entry: its name split on the zip separator, its stored
mode bits, its type, and its (decompressed) content bytes. -/
structure ZipEntry where
  nameComps : List String
  mode : Nat
  entryType : ZipEntryType
  content : List Nat
deriving DecidableEq, Repr

/-- `zipEntry.FileInfo().IsDir()`. -/
def ZipEntry.isDir (e : ZipEntry) : Bool :=
  e.entryType == .directory

/-- Filesystem effects emitted by the extractor. -/
inductive FsAction
  | mkdirAll (p : GoPath) (mode : Nat)
  | writeFile (p : GoPath) (mode : Nat) (content : List Nat)
deriving DecidableEq, Repr

/-- Errors of the zip staging variant. The extractor's only rejection is the
zip-slip check; there is no entry-type rejection in this code path. -/
inductive ExtractError
  | zipSlip (nameComps : List String)
  | entryFailed (nameComps : List String) (inner : ExtractError)
deriving DecidableEq, Repr

/-- Translation of `writeZipEntryToDisk` (build/zip_extract.go): mode is the
entry's stored mode, defaulted to `0644` when zero, and the entry content is
written to the destination path (`os.OpenFile` with `O_CREATE|O_WRONLY|O_TRUNC`
then `io.Copy`). -/
def writeZipEntryToDisk (e : ZipEntry) (destinationPath : GoPath) : List FsAction :=
  let fileMode := if e.mode = 0 then 0o644 else e.mode
  [.writeFile destinationPath fileMode e.content]

/-- Translation of `extractZipEntry` (build/zip_extract.go): join the entry
name onto the destination, reject the entry when the cleaned joined path does
not remain under the cleaned destination (zip slip), create the directory for
a directory entry, and otherwise create the parent directory and write the
entry to disk. No check on the entry type is performed. -/
def extractZipEntry (destinationDirectory : GoPath) (e : ZipEntry) :
    Except ExtractError (List FsAction) :=
  let entryDestPath := pathJoin destinationDirectory e.nameComps
  if !pathWithin (pathClean destinationDirectory) entryDestPath then
    .error (.zipSlip e.nameComps)
  else if e.isDir then
    .ok [.mkdirAll entryDestPath 0o755]
  else
    .ok (.mkdirAll (pathDir entryDestPath) 0o755 :: writeZipEntryToDisk e entryDestPath)

/-- The entry loop of `ExtractZipUpload`: each entry is extracted in order;
the first failing entry is wrapped ("failed to extract entry %q: %w") and
stops the loop, discarding no earlier effect. Returns the performed actions
and the error, if any. -/
def extractEntries (destinationDirectory : GoPath) :
    List ZipEntry → List FsAction × Option ExtractError
  | [] => ([], none)
  | e :: rest =>
    match extractZipEntry destinationDirectory e with
    | .error err => ([], some (.entryFailed e.nameComps err))
    | .ok acts =>
      let (tailActs, res) := extractEntries destinationDirectory rest
      (acts ++ tailActs, res)

/-- Translation of `ExtractZipUpload` (build/zip_extract.go): create the
destination directory (`os.MkdirAll(destinationDirectory, 0755)`), then
extract every entry of the archive in order. -/
def extractZipUpload (destinationDirectory : GoPath) (entries : List ZipEntry) :
    List FsAction × Option ExtractError :=
  let (acts, res) := extractEntries destinationDirectory entries
  (.mkdirAll destinationDirectory 0o755 :: acts, res)

/-- The path a filesystem action touches. -/
def FsAction.path : FsAction → GoPath
  | .mkdirAll p _ => p
  | .writeFile p _ _ => p

/-- Whether a filesystem action writes a file. -/
def FsAction.isWrite : FsAction → Bool
  | .mkdirAll _ _ => false
  | .writeFile _ _ _ => true

/-! ## Directory copy (util/copy.go: CopyDirectory, copyFile)

The walk of `filepath.WalkDir` is modelled as the listing of the source
tree: the relative component path of each visited entry paired with its
directory-entry information, in walk order. `CopyDirectory` transforms the
listing of the source into the listing the destination holds afterwards. -/

/-- What `fs.DirEntry` reports for one visited node. -/
inductive FsNodeInfo
  | dirNode (mode : Nat)
  | fileNode (mode : Nat) (content : List Nat)
  | symlinkNode (target : String)
  | otherNode (kind : ZipEntryType)
deriving DecidableEq, Repr

instance : Inhabited FsNodeInfo := ⟨FsNodeInfo.dirNode 0⟩

/-- A directory listing: relative path components paired with node info. -/
abbrev FsListing := List (List String × FsNodeInfo)

/-- Errors of `CopyDirectory`. -/
inductive CopyError
  | sourceNotDir
  | symlinkNotAllowed (rel : List String)
  | unsupportedFileType (rel : List String)
deriving DecidableEq, Repr

/-- Go `FileMode.Perm()`: the low nine permission bits. -/
def modePerm (mode : Nat) : Nat := mode % 512

/-- The per-entry body of the `filepath.WalkDir` closure in `CopyDirectory`:
symlinks are rejected first, directories are recreated with mode `0755`,
any remaining non-regular entry is rejected, and regular files are copied
by `copyFile` (content copied, source permission bits preserved). -/
def copyWalk : FsListing → Except CopyError FsListing
  | [] => .ok []
  | (rel, info) :: rest =>
    match info with
    | .symlinkNode _ => .error (.symlinkNotAllowed rel)
    | .dirNode _ =>
      match copyWalk rest with
      | .error e => .error e
      | .ok out => .ok ((rel, .dirNode 0o755) :: out)
    | .fileNode mode content =>
      match copyWalk rest with
      | .error e => .error e
      | .ok out => .ok ((rel, .fileNode (modePerm mode) content) :: out)
    | .otherNode _ => .error (.unsupportedFileType rel)

/-- Translation of `CopyDirectory` (util/copy.go, lines 16-66), viewed as a
transformation of the filesystem region around the destination. `src` is the
walk listing of the source tree (the entries strictly below the source root,
in walk order); `rootBefore` is the listing of the filesystem region holding
the destination, with paths relative to that region; `destRel` is the
destination directory inside it. The function stats the source and fails
unless it is a directory, removes the destination in its entirety
(`os.RemoveAll`: every entry at or below `destRel` disappears), recreates it
(`os.MkdirAll`, 0755), then walks the source copying each entry under
`destRel`. On a walk error the error is returned. -/
def copyDirectory (srcIsDir : Bool) (src : FsListing) (destRel : List String)
    (rootBefore : FsListing) : Except CopyError FsListing :=
  if !srcIsDir then .error .sourceNotDir
  else
    let wiped := rootBefore.filter fun ri => !destRel.isPrefixOf ri.1
    match copyWalk src with
    | .error e => .error e
    | .ok out =>
      .ok (wiped ++ (destRel, .dirNode 0o755) :: out.map fun ri => (destRel ++ ri.1, ri.2))

/-- The entries of a listing lying strictly below a directory, with the
directory path stripped. -/
def underDir (destRel : List String) : FsListing → FsListing
  | [] => []
  | ri :: rest =>
    if destRel.isPrefixOf ri.1 = true ∧ ri.1 ≠ destRel
    then (ri.1.drop destRel.length, ri.2) :: underDir destRel rest
    else underDir destRel rest

/-- A listing containing only regular files and directories. -/
def regularListing (l : FsListing) : Bool :=
  l.all fun ri =>
    match ri.2 with
    | .dirNode _ => true
    | .fileNode _ _ => true
    | _ => false

/-- Relative paths and byte contents of the files of a listing. -/
def listingFiles (l : FsListing) : List (List String × List Nat) :=
  l.filterMap fun ri =>
    match ri.2 with
    | .fileNode _ content => some (ri.1, content)
    | _ => none

/-- Relative paths of the directories of a listing. -/
def listingDirs (l : FsListing) : List (List String) :=
  l.filterMap fun ri =>
    match ri.2 with
    | .dirNode _ => some ri.1
    | _ => none

/-! ## Teardown (build/pipeline_cleanup.go: TeardownDeployment and helpers) -/

/-- Outcome of `os.Remove` on the log file: removed, absent
(`os.IsNotExist`), or another failure. -/
inductive RemoveOutcome
  | removed
  | notExist
  | otherError (e : String)
deriving DecidableEq, Repr

/-- The external outcomes a single `TeardownDeployment` call observes:
the Docker stop-and-remove result, the `os.RemoveAll` result on the asset
directory, the `os.Remove` result on the log file, and the row deletion
result. -/
structure TeardownWorld where
  stopRemoveContainer : Except String Unit
  removeAssetDir : Except String Unit
  removeLogFile : RemoveOutcome
  deleteRow : Except String Unit

/-- `CleanupFiles` (build/pipeline_cleanup.go): wraps a failing
`os.RemoveAll` and succeeds otherwise. -/
def cleanupFiles (removeAll : Except String Unit) : Except String Unit :=
  match removeAll with
  | .error e => .error ("failed to remove deployment directory: " ++ e)
  | .ok _ => .ok ()

/-- `CleanupLogFile` (build/pipeline_cleanup.go): an `os.Remove` failure is
an error unless `os.IsNotExist` holds. -/
def cleanupLogFile (remove : RemoveOutcome) : Except String Unit :=
  match remove with
  | .otherError e => .error ("failed to remove log file: " ++ e)
  | _ => .ok ()

/-- Which teardown step produced the returned error. -/
inductive TeardownError
  | containerStep (e : String)
  | filesStep (e : String)
  | rowStep (e : String)
deriving DecidableEq, Repr

/-- Translation of `TeardownDeployment` (build/pipeline_cleanup.go, lines
22-56): stop and remove the container (fatal), remove the asset directory
(fatal), remove the log file (failure only logged), delete the row (last,
fatal). The Boolean records whether the row deletion was executed and
succeeded. -/
def teardownDeployment (w : TeardownWorld) : Except TeardownError Unit × Bool :=
  match w.stopRemoveContainer with
  | .error e => (.error (.containerStep ("failed to remove container: " ++ e)), false)
  | .ok _ =>
    match cleanupFiles w.removeAssetDir with
    | .error e => (.error (.filesStep ("failed to remove files: " ++ e)), false)
    | .ok _ =>
      let _logResult := cleanupLogFile w.removeLogFile
      match w.deleteRow with
      | .error e => (.error (.rowStep ("failed to delete deployment record: " ++ e)), false)
      | .ok _ => (.ok (), true)

/-! ## Runtime adapter (docker/nginx.go: StopAndRemoveContainer) -/

/-- A Docker container as returned by `ContainerList`: its identifier and
its names, each carrying the leading "/" Docker adds internally. -/
structure DockerContainer where
  id : String
  names : List String
deriving DecidableEq, Repr

/-- The Docker daemon state and call outcomes `StopAndRemoveContainer`
observes: the full container list, and the results of `ContainerStop` and
`ContainerRemove` on the targeted container. -/
structure DockerWorld where
  containers : List DockerContainer
  stopResult : Except String Unit
  removeResult : Except String Unit

/-- Substring containment on strings, used to model the Docker `name` list
filter, which matches containers whose name contains the given string as a
substring (per the source comment in `StopAndRemoveContainer`). -/
def strContains (needle hay : String) : Bool :=
  (List.range (hay.toList.length + 1)).any fun i =>
    needle.toList.isPrefixOf (hay.toList.drop i)

/-- The Docker `name` list filter keeps a container when one of its names
contains the queried string. -/
def nameFilterMatches (needle : String) (c : DockerContainer) : Bool :=
  c.names.any fun n => strContains needle n

/-- Translation of `StopAndRemoveContainer` (docker/nginx.go, lines 253-355):
`ContainerList` with the substring name filter, then the nested loop that
keeps only a container one of whose names equals `"/" + containerName`
exactly; when none is found the desired state already holds and `nil` is
returned; otherwise `ContainerStop` (10 s grace) then `ContainerRemove` run
against that container's identifier. The second component lists the
identifiers of containers that were acted upon. -/
def stopAndRemoveContainer (w : DockerWorld) (containerName : String) :
    Except String Unit × List String :=
  let listed := w.containers.filter (nameFilterMatches containerName)
  let targetName := "/" ++ containerName
  match listed.find? (fun c => c.names.contains targetName) with
  | none => (.ok (), [])
  | some c =>
    match w.stopResult with
    | .error e => (.error ("failed to stop container: " ++ e), [c.id])
    | .ok _ =>
      match w.removeResult with
      | .error e => (.error ("failed to remove container: " ++ e), [c.id])
      | .ok _ => (.ok (), [c.id])

/-! ## Zip pipeline status writes (build/pipeline.go: DeployZipUpload,
with the failure helper of build2/pipeline_logger.go) -/

/-- Outcome of the `os.Stat` on the resolved output directory. The source
only branches on `errors.Is(err, os.ErrNotExist)`; any other stat error
falls through to the copy step. -/
inductive StatOutcome
  | statOk
  | statNotExist
  | statOtherError (e : String)
deriving DecidableEq, Repr

/-- The step outcomes one `DeployZipUpload` invocation observes, in source
order. Log-file handling is omitted: it issues no status writes. -/
structure ZipPipelineWorld where
  updateStatusDeploying : Except String Unit
  createTempFile : Except String Unit
  copyUploadToDisk : Except String Unit
  extractZip : Except String Unit
  statOutputDir : StatOutcome
  copyToAssetRoot : Except String Unit
  stopAndRemove : Except String Unit
  startNginx : Except String Unit
  updateStatusLive : Except String Unit

/-- The sequence of status values `DeployZipUpload` (build/pipeline.go,
lines 87-266) writes to the store, in order. The run first re-writes
`deploying`; every unrecoverable step failure goes through the single
failure helper, which writes `failed` and returns; the only other write is
the final `live`. A failing `UpdateStatus(live)` is logged only, so no
further write follows it. -/
def zipPipelineStatusWrites (w : ZipPipelineWorld) : List DeploymentStatus :=
  .deploying ::
    (match w.updateStatusDeploying with
     | .error _ => [.failed]
     | .ok _ =>
       match w.createTempFile with
       | .error _ => [.failed]
       | .ok _ =>
         match w.copyUploadToDisk with
         | .error _ => [.failed]
         | .ok _ =>
           match w.extractZip with
           | .error _ => [.failed]
           | .ok _ =>
             match w.statOutputDir with
             | .statNotExist => [.failed]
             | _ =>
               match w.copyToAssetRoot with
               | .error _ => [.failed]
               | .ok _ =>
                 match w.stopAndRemove with
                 | .error _ => [.failed]
                 | .ok _ =>
                   match w.startNginx with
                   | .error _ => [.failed]
                   | .ok _ => [.live])

/-- Terminal statuses. -/
def isTerminalStatus : DeploymentStatus → Bool
  | .deploying => false
  | .live => true
  | .failed => true

/-! ## Concrete sample data used by witnesses and counterexamples -/

/-- A concrete deployment row. -/
def demoDeployment : Deployment :=
  { id := "d-1", slug := "amber-ridge-3f9a", name := "demo",
    sourceType := .zip, gitHubURL := none, branch := "main",
    buildCommand := "", outputDirectory := ".",
    environmentVariables := none, status := .live,
    url := some "http://amber-ridge-3f9a.localhost", webhookSecret := none,
    autoDeploy := false, expiresAt := some 50, createdAt := 10, updatedAt := 10 }

/-- An expired row with status `live`. -/
def expiredLiveRow : Deployment := demoDeployment

/-- An expired row with status `deploying`. -/
def expiredDeployingRow : Deployment :=
  { demoDeployment with id := "d-2", slug := "bold-fox-0001", status := .deploying }

/-- An expired row with status `failed`. -/
def expiredFailedRow : Deployment :=
  { demoDeployment with id := "d-3", slug := "calm-oak-0002", status := .failed }

/-- A store holding one expired row of each status. -/
def demoStore : List Deployment :=
  [expiredLiveRow, expiredDeployingRow, expiredFailedRow]

/-- A concrete extraction target directory. -/
def demoDestDir : GoPath := ⟨true, ["tmp", "corvus-build-d-1"]⟩

/-- A symlink entry whose name stays inside the target. -/
def demoSymlinkEntry : ZipEntry :=
  { nameComps := ["link.html"], mode := 0o755, entryType := .symlink,
    content := [47, 101, 116, 99] }

/-- A FIFO entry whose name stays inside the target. -/
def demoFifoEntry : ZipEntry :=
  { nameComps := ["pipe"], mode := 0o644, entryType := .fifo, content := [] }

/-- A benign regular entry. -/
def demoGoodEntry : ZipEntry :=
  { nameComps := ["index.html"], mode := 0o644, entryType := .regular,
    content := [60, 104, 49, 62] }

/-- An adversarial entry escaping the target via parent components. -/
def demoEvilEntry : ZipEntry :=
  { nameComps := ["..", "..", "escape"], mode := 0o644, entryType := .regular,
    content := [104, 105] }

/-- Teardown outcomes: the container step fails. -/
def teardownStopFailWorld : TeardownWorld :=
  { stopRemoveContainer := .error "daemon unreachable",
    removeAssetDir := .ok (), removeLogFile := .removed, deleteRow := .ok () }

/-- Teardown outcomes: the asset-directory step fails. -/
def teardownFilesFailWorld : TeardownWorld :=
  { stopRemoveContainer := .ok (), removeAssetDir := .error "permission denied",
    removeLogFile := .removed, deleteRow := .ok () }

/-- Teardown outcomes: only the log-file removal fails. -/
def teardownLogFailWorld : TeardownWorld :=
  { stopRemoveContainer := .ok (), removeAssetDir := .ok (),
    removeLogFile := .otherError "device busy", deleteRow := .ok () }

/-- A container whose exact name matches the demo slug. -/
def demoExactContainer : DockerContainer :=
  { id := "c-exact", names := ["/deploy-amber-ridge-3f9a"] }

/-- A neighbour container whose name merely contains the demo name. -/
def demoSubstrContainer : DockerContainer :=
  { id := "c-sub", names := ["/deploy-amber-ridge-3f9a-2"] }

/-- Docker state holding both the neighbour and the exact container. -/
def demoDockerWorld : DockerWorld :=
  { containers := [demoSubstrContainer, demoExactContainer],
    stopResult := .ok (), removeResult := .ok () }

/-- Docker state holding only the neighbour container. -/
def demoDockerWorldAbsent : DockerWorld :=
  { containers := [demoSubstrContainer],
    stopResult := .ok (), removeResult := .ok () }

/-- A small source tree: one directory and two regular files. -/
def demoSrcListing : FsListing :=
  [(["assets"], .dirNode 0o700),
   (["assets", "app.js"], .fileNode 0o755 [1, 2, 3]),
   (["index.html"], .fileNode 0o644 [60, 104])]

/-- Asset root before publish: the slug directory holds a stale file and a
neighbour slug exists. -/
def demoRootBefore : FsListing :=
  [(["amber-ridge-3f9a"], .dirNode 0o755),
   (["amber-ridge-3f9a", "stale.html"], .fileNode 0o644 [9, 9]),
   (["other-slug"], .dirNode 0o755),
   (["other-slug", "keep.html"], .fileNode 0o644 [7])]

/-! ## Theorems -/

/-- C1: the claim states that `Get(id)` returns the stored deployment without
error for every present row. On the code this fails: the `SELECT` of
`GetDeployment` lists 15 columns (`created_at` is missing) while
`scanDeploymentFields` passes 16 destinations, so `Scan` fails with a
column-count mismatch and `GetDeployment` returns a wrapped error for every
existing row; only the `NotFound` half of the claim holds. This theorem
evaluates the embedded code at a store holding the row `d-1`. -/
theorem getDeployment_scan_mismatch_bug :
    getDeployment [demoDeployment] "d-1"
      = .error (.getFailed "d-1" (.countMismatch 15 16))
    ∧ getDeployment [demoDeployment] "absent-id" = .error .recordNotFound
    ∧ getDeploymentSelectColumns.length = 15
    ∧ scanDeploymentFieldsDestinations.length = 16 :=
  ⟨rfl, rfl, rfl, rfl⟩

/-- C4: the claim (and the doc comment on
`RunEphemeralBuildContainerConfig.ContainerName`) states the ephemeral build
container is named `build-<slug>`. The pipeline indeed creates at most one
build container per run and names the serving container `deploy-<slug>`, but
`DeployGitHub` names the build container `building-<slug>`, contradicting the
documented convention. Evaluated at the slug `amber-ridge-3f9a`. -/
theorem buildContainerName_diverges_from_documented :
    gitHubRunBuildContainers "npm ci && npm run build" "amber-ridge-3f9a"
      = ["building-amber-ridge-3f9a"]
    ∧ (gitHubRunBuildContainers "npm ci && npm run build" "amber-ridge-3f9a").length ≤ 1
    ∧ gitHubRunBuildContainers "" "amber-ridge-3f9a" = []
    ∧ deployContainerName "amber-ridge-3f9a" = "deploy-amber-ridge-3f9a"
    ∧ gitHubBuildContainerName "amber-ridge-3f9a"
        ≠ documentedBuildContainerName "amber-ridge-3f9a" :=
  ⟨rfl, by decide, rfl, rfl, by decide⟩

/-- C7: `ListExpiredDeployments` returns exactly the rows whose expiration is
non-null and at most `now` and whose status is `live`; rows with status
`deploying` or `failed` are never returned. -/
theorem listExpiredDeployments_exact (db : List Deployment) (now : Int)
    (d : Deployment) :
    (d ∈ listExpiredDeployments db now ↔
      d ∈ db ∧ (∃ t, d.expiresAt = some t ∧ t ≤ now) ∧ d.status = .live)
    ∧ ((d.status = .deploying ∨ d.status = .failed) →
        d ∉ listExpiredDeployments db now) := by
  have key : ((match d.expiresAt with
      | none => false
      | some t => decide (t ≤ now)) && decide (d.status = .live)) = true ↔
      (∃ t, d.expiresAt = some t ∧ t ≤ now) ∧ d.status = .live := by
    cases h : d.expiresAt <;> simp [h]
  constructor
  · rw [listExpiredDeployments, List.mem_filter, key]
  · intro hstat hmem
    rw [listExpiredDeployments, List.mem_filter, key] at hmem
    rcases hstat with h | h <;> rw [h] at hmem <;> exact absurd hmem.2.2 (by simp)

/-- Witness for C7 at a concrete store: the expired `deploying` row is not
returned, the expired `live` row is. -/
theorem listExpiredDeployments_exact_witness :
    expiredDeployingRow ∉ listExpiredDeployments demoStore 100
    ∧ expiredLiveRow ∈ listExpiredDeployments demoStore 100 :=
  ⟨(listExpiredDeployments_exact demoStore 100 expiredDeployingRow).2 (Or.inl rfl),
   (listExpiredDeployments_exact demoStore 100 expiredLiveRow).1.mpr
     ⟨by decide, ⟨50, rfl, by decide⟩, rfl⟩⟩

/-- C10: a successful `InsertDeployment` overwrites the caller-supplied
creation and last-update timestamps with the single current time `now`, so
afterwards the mutated struct (and the inserted row, which equals it) has
`createdAt = updatedAt = now`, whatever timestamps the caller supplied. -/
theorem insertDeployment_sets_timestamps (now : Int)
    (execResult : Except String Unit) (d : Deployment)
    (res : Deployment × Deployment)
    (h : insertDeployment now execResult d = .ok res) :
    res.1.createdAt = now ∧ res.1.updatedAt = now
    ∧ res.1.createdAt = res.1.updatedAt
    ∧ res.2 = res.1
    ∧ res.1 = { d with createdAt := now, updatedAt := now } := by
  cases execResult with
  | error e => exact absurd h (by simp [insertDeployment])
  | ok u =>
    have hres : res = (insertMutatedDeployment now d, insertMutatedDeployment now d) := by
      have := h.symm
      simpa [insertDeployment] using this
    subst hres
    simp [insertMutatedDeployment]

/-- Witness for C10 at a concrete insert: the caller supplied timestamps 10,
the store overwrites both with 100. -/
theorem insertDeployment_sets_timestamps_witness :
    (insertMutatedDeployment 100 demoDeployment).createdAt = 100
    ∧ (insertMutatedDeployment 100 demoDeployment).updatedAt = 100 :=
  have h := insertDeployment_sets_timestamps 100 (.ok ()) demoDeployment
    (insertMutatedDeployment 100 demoDeployment,
     insertMutatedDeployment 100 demoDeployment) rfl
  ⟨h.1, h.2.1⟩

/-- C5: the row is deleted only as the last teardown step. A failing
container stop/remove or a failing asset-directory removal makes teardown
return that (wrapped) error with the row left intact; when the fatal steps
succeed, teardown succeeds whatever the log-file removal returned. -/
theorem teardownDeployment_ordering (w : TeardownWorld) :
    (∀ e, w.stopRemoveContainer = .error e →
      teardownDeployment w
        = (.error (.containerStep ("failed to remove container: " ++ e)), false))
    ∧ (∀ e, w.stopRemoveContainer = .ok () → w.removeAssetDir = .error e →
      teardownDeployment w
        = (.error (.filesStep ("failed to remove files: "
            ++ ("failed to remove deployment directory: " ++ e))), false))
    ∧ (w.stopRemoveContainer = .ok () → w.removeAssetDir = .ok () →
        w.deleteRow = .ok () → teardownDeployment w = (.ok (), true)) := by
  refine ⟨?_, ?_, ?_⟩ <;> intros <;>
    simp [teardownDeployment, cleanupFiles, *]

/-- Witness for C5: with a failing container step the error is returned and
the row survives; with only the log-file removal failing, teardown succeeds
and the row is deleted. -/
theorem teardownDeployment_ordering_witness :
    teardownDeployment teardownStopFailWorld
      = (.error (.containerStep "failed to remove container: daemon unreachable"), false)
    ∧ teardownDeployment teardownFilesFailWorld
      = (.error (.filesStep
          "failed to remove files: failed to remove deployment directory: permission denied"),
         false)
    ∧ teardownDeployment teardownLogFailWorld = (.ok (), true) :=
  ⟨(teardownDeployment_ordering teardownStopFailWorld).1 "daemon unreachable" rfl,
   (teardownDeployment_ordering teardownFilesFailWorld).2.1 "permission denied" rfl rfl,
   (teardownDeployment_ordering teardownLogFailWorld).2.2 rfl rfl rfl⟩

/-- C9: `StopAndRemoveContainer` acts on at most one container, and only on
a container one of whose full names equals `"/" + name` exactly; a
neighbour matched by the substring list filter alone is never acted upon.
When no container carries the exact name, the call returns success with no
action performed. -/
theorem stopAndRemoveContainer_exact (w : DockerWorld) (containerName : String) :
    (∀ cid ∈ (stopAndRemoveContainer w containerName).2,
      ∃ c ∈ w.containers, c.id = cid ∧ ("/" ++ containerName) ∈ c.names)
    ∧ (stopAndRemoveContainer w containerName).2.length ≤ 1
    ∧ ((∀ c ∈ w.containers, ("/" ++ containerName) ∉ c.names) →
        stopAndRemoveContainer w containerName = (.ok (), [])) := by
  rcases hf : (w.containers.filter (nameFilterMatches containerName)).find?
      (fun c => c.names.contains ("/" ++ containerName)) with _ | c
  · have hacts : stopAndRemoveContainer w containerName = (.ok (), []) := by
      simp only [stopAndRemoveContainer, hf]
    refine ⟨?_, ?_, fun _ => hacts⟩ <;> simp [hacts]
  · have hcmem : c ∈ w.containers :=
      List.mem_of_mem_filter (List.mem_of_find?_eq_some hf)
    have hcname : ("/" ++ containerName) ∈ c.names := by
      have := List.find?_some hf
      simpa using this
    have hacts : (stopAndRemoveContainer w containerName).2 = [c.id] := by
      simp only [stopAndRemoveContainer, hf]
      cases w.stopResult <;> cases w.removeResult <;> rfl
    refine ⟨?_, by simp [hacts], ?_⟩
    · intro cid hcid
      rw [hacts] at hcid
      simp only [List.mem_singleton] at hcid
      exact ⟨c, hcmem, hcid.symm, hcname⟩
    · intro habsent
      exact absurd hcname (habsent c hcmem)

/-- Witness for C9: in a daemon state holding only the neighbour
`deploy-amber-ridge-3f9a-2`, stopping `deploy-amber-ridge-3f9a` succeeds
without acting; with the exact container present, exactly it is acted on. -/
theorem stopAndRemoveContainer_exact_witness :
    stopAndRemoveContainer demoDockerWorldAbsent "deploy-amber-ridge-3f9a" = (.ok (), [])
    ∧ ∃ c ∈ demoDockerWorld.containers,
        c.id = "c-exact" ∧ ("/" ++ "deploy-amber-ridge-3f9a") ∈ c.names :=
  ⟨(stopAndRemoveContainer_exact demoDockerWorldAbsent "deploy-amber-ridge-3f9a").2.2
      (by decide),
   (stopAndRemoveContainer_exact demoDockerWorld "deploy-amber-ridge-3f9a").1
      "c-exact" (by decide)⟩

/-- Case analysis of the zip pipeline: every run issues exactly the writes
`[deploying, live]` or `[deploying, failed]`. -/
theorem zipPipelineStatusWrites_cases (w : ZipPipelineWorld) :
    zipPipelineStatusWrites w = [.deploying, .live]
    ∨ zipPipelineStatusWrites w = [.deploying, .failed] := by
  rcases w with ⟨f1, f2, f3, f4, f5, f6, f7, f8, f9⟩
  simp only [zipPipelineStatusWrites]
  cases f1 <;> cases f2 <;> cases f3 <;> cases f4 <;> cases f5 <;>
    cases f6 <;> cases f7 <;> cases f8 <;> simp

/-- C8: within one `DeployZipUpload` invocation the sequence of status
writes is a contiguous prefix of `[deploying, live]` or of
`[deploying, failed]`: the run writes `deploying` first, then at most one
terminal status, and never writes `failed` after `live`. -/
theorem zipPipeline_status_monotonic (w : ZipPipelineWorld) :
    ((zipPipelineStatusWrites w).isPrefixOf
        [DeploymentStatus.deploying, DeploymentStatus.live] = true
      ∨ (zipPipelineStatusWrites w).isPrefixOf
        [DeploymentStatus.deploying, DeploymentStatus.failed] = true)
    ∧ (zipPipelineStatusWrites w).head? = some .deploying
    ∧ ((zipPipelineStatusWrites w).filter isTerminalStatus).length ≤ 1
    ∧ zipPipelineStatusWrites w
        ≠ [DeploymentStatus.deploying, DeploymentStatus.live,
           DeploymentStatus.failed] := by
  rcases zipPipelineStatusWrites_cases w with h | h <;> rw [h] <;>
    exact ⟨by decide, by decide, by decide, by decide⟩

/-- C2 counterexample: the zip staging variant does not reject non-regular
entries. A symlink entry and a FIFO entry lying inside the target are both
extracted without error, each written to the target directory as an ordinary
file, refuting the claimed `UnsupportedEntryType` rejection. -/
theorem extractZipEntry_symlink_not_rejected :
    (extractZipEntry demoDestDir demoSymlinkEntry
      = .ok [.mkdirAll ⟨true, ["tmp", "corvus-build-d-1"]⟩ 0o755,
             .writeFile ⟨true, ["tmp", "corvus-build-d-1", "link.html"]⟩ 0o755
               [47, 101, 116, 99]])
    ∧ (extractZipEntry demoDestDir demoFifoEntry
      = .ok [.mkdirAll ⟨true, ["tmp", "corvus-build-d-1"]⟩ 0o755,
             .writeFile ⟨true, ["tmp", "corvus-build-d-1", "pipe"]⟩ 0o644 []]) :=
  ⟨rfl, rfl⟩

/-- C2 (amended): the zip staging variant applies no entry-type check. Every
entry that survives the path-escape check and is not a directory — whether
regular, symlink, device, FIFO or socket — is written into the target
directory as a regular file, with the entry mode defaulted to `0644` when
zero. -/
theorem extractZipEntry_writes_any_nondir (dest : GoPath) (e : ZipEntry)
    (hin : pathWithin (pathClean dest) (pathJoin dest e.nameComps) = true)
    (hnd : e.isDir = false) :
    extractZipEntry dest e
      = .ok [.mkdirAll (pathDir (pathJoin dest e.nameComps)) 0o755,
             .writeFile (pathJoin dest e.nameComps)
               (if e.mode = 0 then 0o644 else e.mode) e.content] := by
  simp [extractZipEntry, hin, hnd, writeZipEntryToDisk]

/-- Witness for the amended C2: the in-target symlink entry is written. -/
theorem extractZipEntry_writes_any_nondir_witness :
    extractZipEntry demoDestDir demoSymlinkEntry
      = .ok [.mkdirAll (pathDir (pathJoin demoDestDir demoSymlinkEntry.nameComps)) 0o755,
             .writeFile (pathJoin demoDestDir demoSymlinkEntry.nameComps)
               (if demoSymlinkEntry.mode = 0 then 0o644 else demoSymlinkEntry.mode)
               demoSymlinkEntry.content] :=
  extractZipEntry_writes_any_nondir demoDestDir demoSymlinkEntry (by decide) (by decide)

/-- A successfully extracted entry only writes files whose cleaned path
stays under the cleaned destination. -/
theorem extractZipEntry_ok_writes_within (dest : GoPath) (e : ZipEntry)
    (acts : List FsAction) (h : extractZipEntry dest e = .ok acts) :
    ∀ a ∈ acts, a.isWrite = true →
      pathWithin (pathClean dest) a.path = true := by
  by_cases hw : pathWithin (pathClean dest) (pathJoin dest e.nameComps) = true
  · by_cases hd : e.isDir = true
    · simp only [extractZipEntry, hw, hd, Bool.not_true, Bool.false_eq_true,
        if_false, if_true] at h
      injection h with h2
      subst h2
      intro a ha
      simp only [List.mem_singleton] at ha
      subst ha
      simp [FsAction.isWrite]
    · rw [Bool.not_eq_true] at hd
      simp only [extractZipEntry, hw, hd, Bool.not_true, Bool.false_eq_true,
        if_false, writeZipEntryToDisk] at h
      injection h with h2
      subst h2
      intro a ha
      simp only [List.mem_cons, List.not_mem_nil, or_false] at ha
      rcases ha with rfl | rfl
      · intro hwr; simp [FsAction.isWrite] at hwr
      · intro _; simpa [FsAction.path] using hw
  · rw [Bool.not_eq_true] at hw
    simp [extractZipEntry, hw] at h

/-- The entry loop surfaces an error whenever some entry of the archive
fails to extract. -/
theorem extractEntries_error_of_mem (dest : GoPath) (entries : List ZipEntry)
    (e : ZipEntry) (hmem : e ∈ entries) (err : ExtractError)
    (herr : extractZipEntry dest e = .error err) :
    (extractEntries dest entries).2.isSome = true := by
  induction entries with
  | nil => cases hmem
  | cons f rest ih =>
    rcases List.mem_cons.mp hmem with rfl | htail
    · simp [extractEntries, herr]
    · cases hf : extractZipEntry dest f with
      | error e2 => simp [extractEntries, hf]
      | ok acts =>
        have := ih htail
        simp only [extractEntries, hf]
        simpa using this

/-- Every file write the entry loop performs targets a path inside the
destination directory. -/
theorem extractEntries_writes_within (dest : GoPath) (entries : List ZipEntry) :
    ∀ a ∈ (extractEntries dest entries).1, a.isWrite = true →
      pathWithin (pathClean dest) a.path = true := by
  induction entries with
  | nil => intro a ha; simp [extractEntries] at ha
  | cons f rest ih =>
    intro a ha hwr
    cases hf : extractZipEntry dest f with
    | error e2 => rw [extractEntries, hf] at ha; simp at ha
    | ok acts =>
      rw [extractEntries, hf] at ha
      simp only [List.mem_append] at ha
      rcases ha with ha | ha
      · exact extractZipEntry_ok_writes_within dest f acts hf a ha hwr
      · exact ih a ha hwr

/-- C3: any archive entry whose name escapes the target directory after
resolving parent components is rejected with the zip-slip error before any
filesystem effect for it is emitted; the archive extraction as a whole then
returns an error, and every file write it performed lies inside the target
directory. -/
theorem extractZip_rejects_escaping_entries (dest : GoPath)
    (entries : List ZipEntry) (e : ZipEntry) (hmem : e ∈ entries)
    (hesc : pathWithin (pathClean dest) (pathJoin dest e.nameComps) = false) :
    extractZipEntry dest e = .error (.zipSlip e.nameComps)
    ∧ (extractZipUpload dest entries).2.isSome = true
    ∧ ∀ a ∈ (extractZipUpload dest entries).1, a.isWrite = true →
        pathWithin (pathClean dest) a.path = true := by
  have herr : extractZipEntry dest e = .error (.zipSlip e.nameComps) := by
    simp [extractZipEntry, hesc]
  refine ⟨herr, ?_, ?_⟩
  · have := extractEntries_error_of_mem dest entries e hmem _ herr
    simpa [extractZipUpload] using this
  · intro a ha hwr
    rw [extractZipUpload] at ha
    simp only [List.mem_cons] at ha
    rcases ha with rfl | ha
    · simp [FsAction.isWrite] at hwr
    · exact extractEntries_writes_within dest entries a ha hwr

/-- Witness for C3: the adversarial entry `../../escape` of a concrete
archive is rejected and the whole extraction errors. -/
theorem extractZip_rejects_escaping_entries_witness :
    extractZipEntry demoDestDir demoEvilEntry
      = .error (.zipSlip ["..", "..", "escape"])
    ∧ (extractZipUpload demoDestDir [demoGoodEntry, demoEvilEntry]).2.isSome = true :=
  have h := extractZip_rejects_escaping_entries demoDestDir
    [demoGoodEntry, demoEvilEntry] demoEvilEntry (by decide) (by decide)
  ⟨h.1, h.2.1⟩

/-- `listingFiles` head equations. -/
theorem listingFiles_cons_dir (rel : List String) (m : Nat) (rest : FsListing) :
    listingFiles ((rel, .dirNode m) :: rest) = listingFiles rest := rfl

theorem listingFiles_cons_file (rel : List String) (m : Nat) (c : List Nat)
    (rest : FsListing) :
    listingFiles ((rel, .fileNode m c) :: rest) = (rel, c) :: listingFiles rest := rfl

/-- `listingDirs` head equations. -/
theorem listingDirs_cons_dir (rel : List String) (m : Nat) (rest : FsListing) :
    listingDirs ((rel, .dirNode m) :: rest) = rel :: listingDirs rest := rfl

theorem listingDirs_cons_file (rel : List String) (m : Nat) (c : List Nat)
    (rest : FsListing) :
    listingDirs ((rel, .fileNode m c) :: rest) = listingDirs rest := rfl

/-- On a listing of regular files and directories the walk copy succeeds,
preserves the relative paths in order, and preserves every file's relative
path and content and every directory's relative path. -/
theorem copyWalk_regular (src : FsListing) (hreg : regularListing src = true) :
    ∃ out, copyWalk src = .ok out
      ∧ out.map Prod.fst = src.map Prod.fst
      ∧ listingFiles out = listingFiles src
      ∧ listingDirs out = listingDirs src := by
  induction src with
  | nil => exact ⟨[], rfl, rfl, rfl, rfl⟩
  | cons ri rest ih =>
    obtain ⟨rel, info⟩ := ri
    cases info with
    | dirNode m =>
      have hreg2 : regularListing rest = true := by
        simp only [regularListing, List.all_cons, Bool.and_eq_true] at hreg
        exact hreg.2
      obtain ⟨out, hout, hmap, hfiles, hdirs⟩ := ih hreg2
      refine ⟨(rel, .dirNode 0o755) :: out, ?_, ?_, ?_, ?_⟩
      · simp [copyWalk, hout]
      · simp [hmap]
      · rw [listingFiles_cons_dir, listingFiles_cons_dir, hfiles]
      · rw [listingDirs_cons_dir, listingDirs_cons_dir, hdirs]
    | fileNode m c =>
      have hreg2 : regularListing rest = true := by
        simp only [regularListing, List.all_cons, Bool.and_eq_true] at hreg
        exact hreg.2
      obtain ⟨out, hout, hmap, hfiles, hdirs⟩ := ih hreg2
      refine ⟨(rel, .fileNode (modePerm m) c) :: out, ?_, ?_, ?_, ?_⟩
      · simp [copyWalk, hout]
      · simp [hmap]
      · rw [listingFiles_cons_file, listingFiles_cons_file, hfiles]
      · rw [listingDirs_cons_file, listingDirs_cons_file, hdirs]
    | symlinkNode t =>
      rw [regularListing, List.all_cons, Bool.false_and] at hreg
      exact absurd hreg Bool.false_ne_true
    | otherNode k =>
      rw [regularListing, List.all_cons, Bool.false_and] at hreg
      exact absurd hreg Bool.false_ne_true

/-- `underDir` distributes over list append. -/
theorem underDir_append (destRel : List String) (l1 l2 : FsListing) :
    underDir destRel (l1 ++ l2) = underDir destRel l1 ++ underDir destRel l2 := by
  induction l1 with
  | nil => rfl
  | cons ri rest ih =>
    simp only [List.cons_append, underDir, List.append_eq, ih]
    split
    · rw [List.cons_append]
    · rfl

/-- Entries surviving the destination wipe lie outside the destination. -/
theorem underDir_of_wiped (destRel : List String) (root : FsListing) :
    underDir destRel (root.filter fun ri => !destRel.isPrefixOf ri.1) = [] := by
  induction root with
  | nil => rfl
  | cons ri rest ih =>
    by_cases h : destRel.isPrefixOf ri.1 = true
    · simpa [List.filter_cons, h] using ih
    · have hb : destRel.isPrefixOf ri.1 = false := by
        cases hx : destRel.isPrefixOf ri.1
        · rfl
        · exact absurd hx h
      rw [List.filter_cons]
      simp only [hb, Bool.not_false, if_true, underDir]
      rw [if_neg (fun hc => Bool.false_ne_true hc.1)]
      exact ih

/-- Stripping the destination from the copied entries recovers the walk
output, provided no entry has an empty relative path. -/
theorem underDir_of_mapped (destRel : List String) (out : FsListing)
    (hne : ∀ ri ∈ out, ri.1 ≠ ([] : List String)) :
    underDir destRel (out.map fun ri => (destRel ++ ri.1, ri.2)) = out := by
  induction out with
  | nil => rfl
  | cons ri rest ih =>
    have hri : ri.1 ≠ ([] : List String) := hne ri (List.mem_cons_self _ _)
    have htail : ∀ rj ∈ rest, rj.1 ≠ ([] : List String) :=
      fun rj hj => hne rj (List.mem_cons_of_mem _ hj)
    have h1 : destRel.isPrefixOf (destRel ++ ri.1) = true := by
      simp [List.isPrefixOf_iff_prefix]
    have h2 : destRel ++ ri.1 ≠ destRel := by
      intro hEq
      have hdrop := congrArg (List.drop destRel.length) hEq
      rw [List.drop_left, List.drop_length] at hdrop
      exact hri hdrop
    simp only [List.map_cons, underDir]
    rw [if_pos ⟨h1, h2⟩, List.drop_left, ih htail]

/-- The listing under the destination after a publish copy is exactly the
walk output. -/
theorem underDir_publish (destRel : List String) (rootBefore out : FsListing)
    (hneOut : ∀ p ∈ out, p.1 ≠ ([] : List String)) :
    underDir destRel ((rootBefore.filter fun ri => !destRel.isPrefixOf ri.1)
      ++ (destRel, FsNodeInfo.dirNode 0o755)
        :: out.map (fun ri => (destRel ++ ri.1, ri.2))) = out := by
  rw [underDir_append, underDir_of_wiped, List.nil_append, underDir,
    if_neg (fun hc => hc.2 rfl), underDir_of_mapped destRel out hneOut]

/-- C6: publishing a source tree of regular files and directories replaces
the destination exactly: the copy succeeds, the region under the destination
afterwards holds precisely the source's files (same relative paths, same
bytes) and directories, and every entry under the destination is either the
destination directory itself or a copy of a source entry — so nothing that
was in the destination before the copy but not in the source survives. -/
theorem copyDirectory_publish (src : FsListing) (destRel : List String)
    (rootBefore : FsListing) (hreg : regularListing src = true)
    (hne : ∀ ri ∈ src, ri.1 ≠ ([] : List String)) :
    ∃ rootAfter, copyDirectory true src destRel rootBefore = .ok rootAfter
      ∧ listingFiles (underDir destRel rootAfter) = listingFiles src
      ∧ listingDirs (underDir destRel rootAfter) = listingDirs src
      ∧ ∀ ri ∈ rootAfter, destRel.isPrefixOf ri.1 = true →
          ri.1 = destRel ∨ ∃ rj ∈ src, ri.1 = destRel ++ rj.1 := by
  obtain ⟨out, hout, hmap, hfiles, hdirs⟩ := copyWalk_regular src hreg
  have hfst : ∀ p ∈ out, ∃ rj ∈ src, rj.1 = p.1 := by
    intro p hp
    have : p.1 ∈ src.map Prod.fst := by
      rw [← hmap]; exact List.mem_map_of_mem _ hp
    simpa using this
  have hneOut : ∀ p ∈ out, p.1 ≠ ([] : List String) := by
    intro p hp hnil
    obtain ⟨rj, hrj, hrjeq⟩ := hfst p hp
    exact hne rj hrj (hrjeq.trans hnil)
  have hud := underDir_publish destRel rootBefore out hneOut
  refine ⟨(rootBefore.filter fun ri => !destRel.isPrefixOf ri.1)
      ++ (destRel, FsNodeInfo.dirNode 0o755)
        :: out.map (fun ri => (destRel ++ ri.1, ri.2)), ?_, ?_, ?_, ?_⟩
  · simp [copyDirectory, hout]
  · rw [hud, hfiles]
  · rw [hud, hdirs]
  · intro ri hri hpre
    rcases List.mem_append.mp hri with hri | hri
    · have hkeep := (List.mem_filter.mp hri).2
      rw [hpre] at hkeep
      simp at hkeep
    · rcases List.mem_cons.mp hri with rfl | hri
      · exact Or.inl rfl
      · obtain ⟨p, hp, hpeq⟩ := List.mem_map.mp hri
        obtain ⟨rj, hrj, hrjeq⟩ := hfst p hp
        refine Or.inr ⟨rj, hrj, ?_⟩
        rw [← hpeq, hrjeq]

/-- Witness for C6 at a concrete publish: the asset root held a stale file
under the slug; after the copy the slug directory matches the source tree. -/
theorem copyDirectory_publish_witness :
    ∃ rootAfter,
      copyDirectory true demoSrcListing ["amber-ridge-3f9a"] demoRootBefore
        = .ok rootAfter
      ∧ listingFiles (underDir ["amber-ridge-3f9a"] rootAfter)
        = listingFiles demoSrcListing
      ∧ listingDirs (underDir ["amber-ridge-3f9a"] rootAfter)
        = listingDirs demoSrcListing := by
  obtain ⟨r, h1, h2, h3, _⟩ := copyDirectory_publish demoSrcListing
    ["amber-ridge-3f9a"] demoRootBefore (by decide) (by decide)
  exact ⟨r, h1, h2, h3⟩

end Corvus
